import Mathlib

/-!
Verification of the batched LLM-orchestration core of the
Manuscript Processing & Indexing System.

The development shallowly embeds the repository's TypeScript source:
promise-returning functions become functions into `Except`, the network is an
oracle parameter, and the observable side effects needed by the properties
(processor invocations, batch-start callbacks, recorded prompts, logs) are
returned as explicit traces.
-/

namespace MPIS

/-- Outcome of a JS promise: `ok` models a resolution, `error` a rejection. -/
abbrev JsPromise (E R : Type) := Except E R

def isError {E R : Type} : Except E R → Bool
  | Except.error _ => true
  | Except.ok _ => false

/-- Observable events of `processInBatches` (src/utils/asyncUtils.ts):
`batchStart i n` is a call of the `onBatchStart` callback with 1-based batch
index `i` and total count `n`; `call j` is an invocation of `processor` with
original index `j` (a promise being created). -/
inductive BatchEvent where
  | batchStart (batchIndex totalBatches : Nat)
  | call (originalIndex : Nat)
deriving DecidableEq, Repr

/-- Semantics of `Promise.all`: all promises are already created (their side
effects happened); the aggregate resolves with the values in positional order
iff every promise resolves, and rejects if any member rejects. -/
def promiseAll {E R : Type} : List (Except E R) → Except E (List R)
  | [] => Except.ok []
  | Except.error e :: _ => Except.error e
  | Except.ok r :: rest =>
    match promiseAll rest with
    | Except.error e => Except.error e
    | Except.ok rs => Except.ok (r :: rs)

/-- The promise list of one chunk:
`batchItems.map((item, localIndex) => processor(item, i + localIndex))`. -/
def batchCalls {T E R : Type} (p : T → Nat → Except E R) : Nat → List T → List (Except E R)
  | _, [] => []
  | i, x :: xs => p x i :: batchCalls p (i + 1) xs

/-- The `call` events of one chunk of `n` items whose first original index is `i`. -/
def callEvents : Nat → Nat → List BatchEvent
  | _, 0 => []
  | i, n + 1 => BatchEvent.call i :: callEvents (i + 1) n

/-- List mapped with its original index, starting at offset `i`
(used to describe the batched output). -/
def mapIdxFrom {T R : Type} (g : Nat → T → R) : Nat → List T → List R
  | _, [] => []
  | i, x :: xs => g i x :: mapIdxFrom g (i + 1) xs

/-- Source: `const totalBatches = Math.ceil(items.length / batchSize);`. -/
def totalBatchCount (n batchSize : Nat) : Nat := (n + batchSize - 1) / batchSize

/-- Loop of `processInBatches` for `batchSize = b + 1`, with `fuel ≥ items.length`
(the loop consumes at least one item per iteration, so the fuel is never
exhausted; the `fuel = 0` branch is unreachable under that invariant).
`i` is the original index of the first remaining item; per iteration the loop
fires `onBatchStart (Math.floor(i / batchSize) + 1, totalBatches)`, creates all
of the chunk's promises (the `call` events), awaits them together, and appends
the chunk's results. A rejection rejects the whole run and stops the loop. -/
def goB {T E R : Type} (p : T → Nat → Except E R) (b tb : Nat) :
    Nat → List T → Nat → Except E (List R) × List BatchEvent
  | _, [], _ => (Except.ok [], [])
  | 0, _ :: _, _ => (Except.ok [], [])
  | fuel + 1, x :: xs, i =>
    let chunk := x :: xs.take b
    let events := BatchEvent.batchStart (i / (b + 1) + 1) tb :: callEvents i chunk.length
    match promiseAll (batchCalls p i chunk) with
    | Except.error e => (Except.error e, events)
    | Except.ok rs =>
      let rest := goB p b tb fuel (xs.drop b) (i + (b + 1))
      (Except.map (fun tail => rs ++ tail) rest.fst, events ++ rest.snd)

/-- Embedding of `processInBatches` (src/utils/asyncUtils.ts, lines 9-29),
returning the run's outcome together with its event trace. For `batchSize = 0`
the JS loop does not terminate on nonempty input (`i += 0`), so the model is
meaningful only for `batchSize ≥ 1`, which every verified property assumes. -/
def processInBatchesTr {T E R : Type} (items : List T) (p : T → Nat → Except E R)
    (batchSize : Nat) : Except E (List R) × List BatchEvent :=
  match batchSize with
  | 0 => (Except.ok [], [])
  | b + 1 => goB p b (totalBatchCount items.length (b + 1)) items.length items 0

/-- The promise returned by `processInBatches`. -/
def processInBatches {T E R : Type} (items : List T) (p : T → Nat → Except E R)
    (batchSize : Nat) : Except E (List R) :=
  (processInBatchesTr items p batchSize).fst

/-- The event trace of a `processInBatches` run. -/
def batchEvents {T E R : Type} (items : List T) (p : T → Nat → Except E R)
    (batchSize : Nat) : List BatchEvent :=
  (processInBatchesTr items p batchSize).snd

/-! JS string primitives, embedded structurally over `String.data` so that they
evaluate by kernel reduction. Each models the exact JS operation the source
uses (literal search patterns only; the source never splits or replaces on an
empty pattern). -/

/-- Characters trimmed by JS `String.prototype.trim` (restricted to the ASCII
whitespace the source's strings can contain). -/
def wsChar (c : Char) : Bool :=
  c = ' ' || c = '\t' || c = '\n' || c = '\r'

/-- JS `s.trim()`. -/
def jsTrim (s : String) : String :=
  ⟨((s.data.dropWhile wsChar).reverse.dropWhile wsChar).reverse⟩

/-- Replace every occurrence of `pat` (nonempty), scanning left to right and
not rescanning the substitution: JS `s.replace(/pat/g, sub)` for a literal
pattern. `fuel` is the input length; each step consumes at least one char. -/
def replChars (pat sub : List Char) : Nat → List Char → List Char
  | _, [] => []
  | 0, l => l
  | fuel + 1, c :: cs =>
    if pat.isPrefixOf (c :: cs) && !pat.isEmpty then
      sub ++ replChars pat sub fuel ((c :: cs).drop pat.length)
    else
      c :: replChars pat sub fuel cs

/-- JS `s.replace(/pat/g, sub)` for a literal pattern `pat`. -/
def jsReplaceAll (s pat sub : String) : String :=
  ⟨replChars pat.data sub.data s.data.length s.data⟩

/-- Replace only the first occurrence: JS `s.replace(pat, sub)` with a string
pattern. -/
def replFirstChars (pat sub : List Char) : Nat → List Char → List Char
  | _, [] => []
  | 0, l => l
  | fuel + 1, c :: cs =>
    if pat.isPrefixOf (c :: cs) && !pat.isEmpty then
      sub ++ (c :: cs).drop pat.length
    else
      c :: replFirstChars pat sub fuel cs

/-- JS `s.replace(pat, sub)` (string pattern, first occurrence only). -/
def jsReplaceFirst (s pat sub : String) : String :=
  ⟨replFirstChars pat.data sub.data s.data.length s.data⟩

/-- Split on a nonempty literal separator, JS `s.split(sep)` semantics:
`"".split(sep) = [""]`, trailing separators yield trailing empty strings. -/
def splitChars (sep : List Char) : Nat → List Char → List Char → List (List Char)
  | _, acc, [] => [acc.reverse]
  | 0, acc, l => [acc.reverse ++ l]
  | fuel + 1, acc, c :: cs =>
    if sep.isPrefixOf (c :: cs) && !sep.isEmpty then
      acc.reverse :: splitChars sep fuel [] ((c :: cs).drop sep.length)
    else
      splitChars sep fuel (c :: acc) cs

/-- JS `s.split(sep)` for a nonempty literal separator. -/
def jsSplit (s sep : String) : List String :=
  (splitChars sep.data s.data.length [] s.data).map (fun l => (⟨l⟩ : String))

/-- Substring search helper for JS `s.includes(pat)`. -/
def hasSubstrChars (pat : List Char) : Nat → List Char → Bool
  | _, [] => pat.isEmpty
  | 0, _ => false
  | fuel + 1, c :: cs => pat.isPrefixOf (c :: cs) || hasSubstrChars pat fuel cs

/-- JS `s.includes(pat)`. -/
def jsIncludes (s pat : String) : Bool :=
  hasSubstrChars pat.data s.data.length s.data

/-- JS `parts.join(sep)`. -/
def joinWith (sep : String) : List String → String
  | [] => ""
  | p :: ps => ps.foldl (fun a q => a ++ sep ++ q) p

/-! Embedding of `getEffectiveParameters` (src/unnamed/part_000, lines
1481-1493). The parameter mapping is modelled as `String → Option P`
(JS object lookup; entries are objects, hence truthy exactly when present),
generic in the parameter payload `P`. -/

/-- The descending loop `for (let i = parts.length; i > 0; i--)`: test the
join of the first `i` segments, return the first (longest) hit, else recurse;
`i = 0` is the `config["default"]` fallback after the loop. -/
def pfxLoop {P : Type} (parts : List String) (config : String → Option P) : Nat → Option P
  | 0 => config "default"
  | i + 1 =>
    match config (joinWith "-" (parts.take (i + 1))) with
    | some p => some p
    | none => pfxLoop parts config i

/-- Embedding of `getEffectiveParameters(code, config)`: empty (falsy) code
returns `config["default"]`; otherwise the longest dash-joined segment
sequence of `code.split('-')` that is a key of `config` wins, with the
`"default"` fallback. -/
def getEffectiveParameters {P : Type} (code : String) (config : String → Option P) : Option P :=
  if code = "" then config "default"
  else pfxLoop (jsSplit code "-") config (jsSplit code "-").length

/-- The concrete configuration of the claim's examples:
`{"default": P0, "1": P1, "1-3": P2}` with `P0, P1, P2` rendered as `0, 1, 2`. -/
def exampleParamConfig : String → Option Nat := fun s =>
  if s = "default" then some 0
  else if s = "1" then some 1
  else if s = "1-3" then some 2
  else none

/-! Embedding of `handleApiError` (src/services/siliconflowService.ts, lines
50-75). JSON values are modelled by `Js` (strings, `null`, objects — the
shapes an error body takes); `JSON.parse` and `JSON.stringify` are the
browser's, so parsing is part of the response model (`bodyJson`, `none` when
`response.json()` throws) while stringification is `stringifyJs`. -/

inductive Js where
  | str (s : String)
  | jnull
  | obj (fields : List (String × Js))

mutual
/-- JS `JSON.stringify` on the modelled value universe. -/
def stringifyJs : Js → String
  | Js.str s => "\"" ++ s ++ "\""
  | Js.jnull => "null"
  | Js.obj fields => "\x7b" ++ stringifyFields fields ++ "\x7d"

def stringifyFields : List (String × Js) → String
  | [] => ""
  | [(k, v)] => "\"" ++ k ++ "\":" ++ stringifyJs v
  | (k, v) :: rest => "\"" ++ k ++ "\":" ++ stringifyJs v ++ "," ++ stringifyFields rest
end

/-- JS truthiness of a parsed JSON value: `""` and `null` are falsy, any
object (including `{}`) and any nonempty string are truthy. -/
def jsTruthy : Js → Bool
  | Js.str s => !(s == "")
  | Js.jnull => false
  | Js.obj _ => true

/-- JS `String(v)` coercion, as applied by `new Error(message)`. -/
def jsToString : Js → String
  | Js.str s => s
  | Js.jnull => "null"
  | Js.obj _ => "[object Object]"

def lookupField : List (String × Js) → String → Option Js
  | [], _ => none
  | (k, v) :: rest, key => if k == key then some v else lookupField rest key

/-- JS property access `j[key]` (`undefined`, i.e. `none`, on non-objects). -/
def jsGet : Js → String → Option Js
  | Js.obj fields, key => lookupField fields key
  | _, _ => none

/-- The field's value when it is present and truthy (the shape of every
`x && x.f` guard in the source). -/
def truthyField (j : Js) (key : String) : Option Js :=
  match jsGet j key with
  | some v => if jsTruthy v then some v else none
  | none => none

/-- A non-2xx HTTP response as `handleApiError` observes it: status, status
text, the `content-type` header (`none` when absent), the body text, and the
body's JSON parse (`none` when `response.json()` would throw). -/
structure HttpResponse where
  status : Nat
  statusText : String
  contentType : Option String
  bodyText : String
  bodyJson : Option Js

/-- Embedding of `handleApiError`: the message of the single `Error` it
produces. The initial `HTTP Error: status statusText` default is overwritten
on every path of the source, so it never escapes and does not appear here. -/
def handleApiError (r : HttpResponse) : String :=
  let isJsonCT :=
    match r.contentType with
    | some ct => jsIncludes ct "application/json"
    | none => false
  if isJsonCT then
    match r.bodyJson with
    | none => "Failed to parse error response. Status: " ++ toString r.status
    | some j =>
      match (if jsTruthy j then truthyField j "message" else none) with
      | some m => jsToString m
      | none =>
        match (if jsTruthy j then
                 match truthyField j "error" with
                 | some e => truthyField e "message"
                 | none => none
               else none) with
        | some m => jsToString m
        | none => "Received unexpected JSON error format: " ++ stringifyJs j
  else
    "Received unexpected error format: "
      ++ (if r.bodyText = "" then "Empty response from server" else r.bodyText)

/-- Spec-side selector: the top-level `message` field, under JS truthiness. -/
def jsonTopMessage (j : Js) : Option Js :=
  if jsTruthy j then truthyField j "message" else none

/-- Spec-side selector: the nested `error.message` field, under JS truthiness. -/
def jsonNestedMessage (j : Js) : Option Js :=
  if jsTruthy j then
    match truthyField j "error" with
    | some e => truthyField e "message"
    | none => none
  else none

/-! Embedding of `performComprehensiveAnalysis` (src/services/
siliconflowService.ts, lines 218-393). The network is an oracle: `net0` is the
outcome of the single Round-0 call (already through JSON parsing — its payload
is the parsed `summary` field, `none` when absent), `net1 kw` the outcome of
the Round-1 call for a keyword, and `net2 (kw, c)` the outcome of the Round-2
call for a primary concept `c` tagged with its originating keyword (payloads
are the parsed `concepts` arrays, `none` when the field is absent or falsy,
matching `JSON.parse(content).concepts || []`; an oracle error is any
rejection of the per-item promise chain: HTTP error or JSON parse throw). -/

/-- A concept as the merge logic observes it (the scalar fields the prompts
interpolate; `relationships`/`parent` are carried opaquely by the real code
and never inspected by the modelled logic). -/
structure Concept where
  id : String
  name : String
  definition : String
  explanation : String
deriving DecidableEq

/-- One keyword's slot of the result record
(`Partial<ComprehensiveKeywordResult>`): both fields optional. -/
structure KeywordResult where
  primary : Option (List Concept)
  secondary : Option (List Concept)
deriving DecidableEq

/-- JS object assignment `rec[k] = v` on a string-keyed record. -/
def updRec (rec : String → Option KeywordResult) (k : String) (v : KeywordResult) :
    String → Option KeywordResult :=
  fun s => if s = k then some v else rec s

def listFlatMap {A B : Type} (f : A → List B) : List A → List B
  | [] => []
  | x :: xs => f x ++ listFlatMap f xs

/-- JS `/\b\w/g → toUpperCase` pass: uppercase every word character that does
not follow a word character (`\w = [A-Za-z0-9_]`). -/
def capWordsAux : Bool → List Char → List Char
  | _, [] => []
  | prevWord, c :: cs =>
    let isW := c.isAlphanum || c = '_'
    (if isW && !prevWord then c.toUpper else c) :: capWordsAux isW cs

def capitalizeWordStarts (s : String) : String := ⟨capWordsAux false s.data⟩

/-- Round 0's reduction of the parsed `summary` value to the
`preliminarySummary` string: a nonempty string is taken as is, an empty one
and a missing/null value degrade to the fixed notice, and an object is
formatted as `**Key:** value` paragraphs (underscores to spaces, word starts
capitalized). -/
def summaryToString : Option Js → String
  | some (Js.str s) => if s = "" then "AI未能生成有效的总结。" else s
  | some (Js.obj fields) =>
    joinWith "\n\n" (fields.map (fun kv =>
      "**" ++ capitalizeWordStarts (jsReplaceAll kv.fst "_" " ") ++ ":** "
        ++ jsToString kv.snd))
  | some Js.jnull => "AI未能生成有效的总结。"
  | none => "AI未能生成有效的总结。"

/-- Round-1 user prompt for one keyword (the source's replacement chain, all
`/g` replaces, in order). -/
def round1Prompt (r1User textContent summary kw : String) : String :=
  jsReplaceAll
    (jsReplaceAll
      (jsReplaceAll r1User "\x7b\x7bkeyword\x7d\x7d" kw)
      "\x7b\x7btextContent\x7d\x7d" textContent)
    "\x7b\x7bdocumentSummary\x7d\x7d" summary

/-- `JSON.stringify(mainConcept, null, 2)` for a Round-1 concept spread
together with its originating keyword (`{...concept, keyword}`); modelled up
to JSON string escaping, which the claims never inspect. -/
def conceptStringify (kw : String) (c : Concept) : String :=
  "\x7b\n  \"id\": \"" ++ c.id ++ "\",\n  \"name\": \"" ++ c.name
    ++ "\",\n  \"definition\": \"" ++ c.definition ++ "\",\n  \"explanation\": \""
    ++ c.explanation ++ "\",\n  \"keyword\": \"" ++ kw ++ "\"\n\x7d"

/-- Round-2 user prompt for one tagged primary concept (the source's
replacement chain, in order). -/
def round2Prompt (r2User textContent summary kw : String) (c : Concept) : String :=
  jsReplaceAll
    (jsReplaceAll
      (jsReplaceAll
        (jsReplaceAll
          (jsReplaceAll
            (jsReplaceAll r2User "\x7b\x7bkeyword\x7d\x7d" kw)
            "\x7b\x7bmainConceptName\x7d\x7d" c.name)
          "\x7b\x7bmainConceptId\x7d\x7d" c.id)
        "\x7b\x7bmainConceptAnalysis\x7d\x7d" (conceptStringify kw c))
      "\x7b\x7btextContent\x7d\x7d" textContent)
    "\x7b\x7bdocumentSummary\x7d\x7d" summary

/-- The concepts a successful Round-1 call yields for a keyword
(`JSON.parse(content).concepts || []`); `[]` on a rejected call, which the
success-run theorems exclude by hypothesis. -/
def net1val (net1 : String → Except String (Option (List Concept))) (kw : String) :
    List Concept :=
  match net1 kw with
  | Except.ok o => o.getD []
  | Except.error _ => []

/-- The concepts a successful Round-2 call yields for a tagged primary concept. -/
def net2val (net2 : String × Concept → Except String (Option (List Concept)))
    (p : String × Concept) : List Concept :=
  match net2 p with
  | Except.ok o => o.getD []
  | Except.error _ => []

/-- The flattened primary-concept list
(`round1Results.flatMap(res => res.data.map(c => ({...c, keyword})))`),
expressed from the oracle for a successful Round 1. -/
def mainConceptsOf (net1 : String → Except String (Option (List Concept)))
    (keywords : List String) : List (String × Concept) :=
  listFlatMap (fun kw => (net1val net1 kw).map (fun c => (kw, c))) keywords

/-- `analysisResults[res.keyword] = { primary: res.data }` over the Round-1
results, in order, starting from the empty record. -/
def buildPrimary (rs : List (String × List Concept)) : String → Option KeywordResult :=
  rs.foldl (fun acc kc => updRec acc kc.fst ⟨some kc.snd, none⟩) (fun _ => none)

/-- One step of the Round-2 merge: guard on the keyword's slot existing,
create `secondary` as `[]` if absent, then push the chunk of new concepts. -/
def pushSecondary (acc : String → Option KeywordResult) (res : String × List Concept) :
    String → Option KeywordResult :=
  match acc res.fst with
  | none => acc
  | some e => updRec acc res.fst ⟨e.primary, some (e.secondary.getD [] ++ res.snd)⟩

def applySecondary (rs : List (String × List Concept))
    (acc : String → Option KeywordResult) : String → Option KeywordResult :=
  rs.foldl pushSecondary acc

/-- The observable outputs of one `performComprehensiveAnalysis` run: the
summary, the merged per-keyword results, the recorded prompts, and the body's
own log lines (per-request logs and batch-progress callbacks, emitted inside
the network layer, are part of the oracle). -/
structure CompOutput where
  preliminarySummary : String
  results : String → Option KeywordResult
  round0Prompt : String
  round1Prompts : List (String × String)
  round2Prompts : List (String × String)
  logs : List String

/-- Embedding of `performComprehensiveAnalysis`: Round 0's failure is caught
and degrades to the placeholder summary; Round 1 batches over `keywords`;
Round 2 batches over the flattened primary concepts unless that list is
empty; the merge assigns `primary` per keyword and accumulates `secondary`. -/
def performComprehensiveAnalysis (textContent : String) (keywords : List String)
    (concurrencyLimit : Nat) (r0User r1User r2User : String)
    (net0 : Except String (Option Js))
    (net1 : String → Except String (Option (List Concept)))
    (net2 : String × Concept → Except String (Option (List Concept))) :
    Except String CompOutput :=
  let round0Prompt := jsReplaceFirst r0User "\x7b\x7btextContent\x7d\x7d" textContent
  let prelim :=
    match net0 with
    | Except.ok sv => (summaryToString sv, "第0轮: 文稿结构总结完成。")
    | Except.error msg => ("文稿总结失败: " ++ msg, "第0轮: 文稿总结失败 - " ++ msg)
  let preliminarySummary := prelim.fst
  let r1proc := fun (kw : String) (_ : Nat) =>
    match net1 kw with
    | Except.ok o => Except.ok (kw, o.getD [])
    | Except.error m => Except.error ("主概念提取失败 (" ++ kw ++ "): " ++ m)
  match processInBatches keywords r1proc concurrencyLimit with
  | Except.error e => Except.error e
  | Except.ok round1Results =>
    let analysisResults := buildPrimary round1Results
    let allMainConcepts :=
      listFlatMap (fun kc => kc.snd.map (fun c => (kc.fst, c))) round1Results
    let round1Prompts := keywords.map (fun kw =>
      (kw, round1Prompt r1User textContent preliminarySummary kw))
    let logs := ["第0轮: 开始进行文稿结构与内容总结...", prelim.snd,
      "第1轮: 开始为 " ++ toString keywords.length
        ++ " 个关键词提取主概念图谱 (批处理上限: " ++ toString concurrencyLimit ++ ")...",
      "第2轮: 开始为 " ++ toString allMainConcepts.length
        ++ " 个主概念深化次级概念 (批处理上限: " ++ toString concurrencyLimit ++ ")..."]
    if allMainConcepts.length > 0 then
      let r2proc := fun (p : String × Concept) (_ : Nat) =>
        match net2 p with
        | Except.ok o => Except.ok (p.fst, o.getD [])
        | Except.error m => Except.error ("次级概念深化失败 (" ++ p.snd.name ++ "): " ++ m)
      match processInBatches allMainConcepts r2proc concurrencyLimit with
      | Except.error e => Except.error e
      | Except.ok round2Results =>
        Except.ok ⟨preliminarySummary, applySecondary round2Results analysisResults,
          round0Prompt, round1Prompts,
          allMainConcepts.map (fun p =>
            (p.snd.name, round2Prompt r2User textContent preliminarySummary p.fst p.snd)),
          logs⟩
    else
      Except.ok ⟨preliminarySummary, analysisResults, round0Prompt, round1Prompts, [], logs⟩

/-- The value of the `secondary` field after pushing a sequence of Round-2
chunks onto a slot whose `secondary` starts as `s`. -/
def secAfter (s : Option (List Concept)) : List (List Concept) → Option (List Concept)
  | [] => s
  | d :: ds => secAfter (some (s.getD [] ++ d)) ds

/-! Embedding of the persona chat protocol: `chatWithPersona` (src/unnamed/
part_000, lines 1499-1595, the two-call version with parameter resolution) and
the UI handlers `handleSendMessage` (lines 210-240), `handleStartConversation`
(lines 40-101) and `handleGenerate` (lines 440-486). -/

inductive Role where
  | user
  | model
deriving DecidableEq

/-- A history entry; `thinking` is the optional recorded thinking text. -/
structure ChatMessage where
  role : Role
  content : String
  thinking : Option String := none
deriving DecidableEq

/-- A wire message of a chat-completion request. -/
structure ApiMessage where
  role : String
  content : String
deriving DecidableEq

/-- `msg => ({ role: msg.role === 'model' ? 'assistant' : 'user', content })`. -/
def toApiMessage (m : ChatMessage) : ApiMessage :=
  ⟨if m.role = Role.model then "assistant" else "user", m.content⟩

/-- Persona sampling parameters (numeric sampling values are carried through
unchanged, so their exact arithmetic type is irrelevant; ℚ stands in for the
JS numbers). -/
structure PersonaParameters where
  temperature : Rat
  topP : Rat
  maxHistoryTurns : Nat
deriving DecidableEq

/-- JS `arr.slice(-n)`: the last `n` elements (the whole array when
`n ≥ length`, and also when `n = 0`, since `slice(-0)` is `slice(0)`). -/
def jsSliceLast {A : Type} (l : List A) (n : Nat) : List A :=
  if n = 0 then l else l.drop (l.length - n)

/-- First capture of the non-greedy regex `openTag([\s\S]*?)closeTag`:
the text between the first `openTag` and the first `closeTag` after it. -/
def extractBetween (s openTag closeTag : String) : Option String :=
  match jsSplit s openTag with
  | _ :: rest@(_ :: _) =>
    (match jsSplit (joinWith openTag rest) closeTag with
     | x :: _ :: _ => some x
     | _ => none)
  | _ => none

/-- Removal of the first `<thinking>...</thinking>` block (the source's
non-global `replace(/<thinking>[\s\S]*?<\/thinking>/, '')`). -/
def stripThinkingBlock (s : String) : String :=
  match jsSplit s "<thinking>" with
  | pre :: rest@(_ :: _) =>
    (match jsSplit (joinWith "<thinking>" rest) "</thinking>" with
     | _ :: r2@(_ :: _) => pre ++ joinWith "</thinking>" r2
     | _ => s)
  | _ => s

/-- Error kinds a persona turn surfaces: the distinguished abort (JS
`AbortError`, rethrown untouched) versus any other failure, carrying its
message. -/
inductive ChatErr where
  | aborted
  | failure (msg : String)
deriving DecidableEq

/-- Stage wrapping of a non-abort failure
(`throw new Error(stage + message)`); aborts pass through. -/
def wrapStage (stage : String) : ChatErr → ChatErr
  | ChatErr.aborted => ChatErr.aborted
  | ChatErr.failure m => ChatErr.failure (stage ++ m)

/-- The fixed meta-role system prompt of both persona calls. -/
def personaSystemPrompt : String :=
  "你是一位顶级演员和哲学思想家，你的任务是完美地、完全沉浸地扮演一个指定的哲学人格。你将分两步完成此任务：首先进行内在的、结构化的思考，然后基于该思考生成自然流畅的对话。"

/-- Message list of the thinking call: system, the last 4 messages of the
already-truncated history, then the populated thinking template. -/
def thinkingCallMessages (effectiveHistory : List ChatMessage)
    (thinkingUserPrompt : String) : List ApiMessage :=
  ⟨"system", personaSystemPrompt⟩ :: (jsSliceLast effectiveHistory 4).map toApiMessage
    ++ [⟨"user", thinkingUserPrompt⟩]

/-- Message list of the reply call: system, the full truncated history, the
raw user message, the thinking content as an assistant message, then the
populated reply template. -/
def replyCallMessages (effectiveHistory : List ChatMessage)
    (message thinkingContent replyUserPrompt : String) : List ApiMessage :=
  ⟨"system", personaSystemPrompt⟩ :: effectiveHistory.map toApiMessage
    ++ [⟨"user", message⟩, ⟨"assistant", thinkingContent⟩, ⟨"user", replyUserPrompt⟩]

/-- Embedding of the two-step `chatWithPersona`: resolve parameters (a JS
`TypeError` if the config lacks `"default"`), truncate history to the last
`maxHistoryTurns * 2` messages, parse the two templates out of the structured
prompt, run the thinking call, then the reply call, trimming and stripping any
echoed `<thinking>` block. `netThinking`/`netReply` are the network oracle for
the two requests, keyed by the exact message list sent. -/
def chatWithPersona (structuredPersonaPrompt : String) (history : List ChatMessage)
    (message philosophyCode : String)
    (parameterConfig : String → Option PersonaParameters)
    (netThinking netReply : List ApiMessage → Except ChatErr String) :
    Except ChatErr (String × String) :=
  match getEffectiveParameters philosophyCode parameterConfig with
  | none => Except.error (ChatErr.failure "TypeError: params is undefined")
  | some params =>
    let effectiveHistory := jsSliceLast history (params.maxHistoryTurns * 2)
    match extractBetween structuredPersonaPrompt "<THINKING_PROMPT>" "</THINKING_PROMPT>",
          extractBetween structuredPersonaPrompt "<REPLY_PROMPT>" "</REPLY_PROMPT>" with
    | some thinkingTpl, some replyTpl =>
      let thinkingUserPrompt := jsReplaceAll thinkingTpl "\x7b\x7buserInput\x7d\x7d" message
      (match netThinking (thinkingCallMessages effectiveHistory thinkingUserPrompt) with
       | Except.error e => Except.error (wrapStage "对话失败 (思考阶段): " e)
       | Except.ok rawThinking =>
         let thinkingContent := jsTrim rawThinking
         let replyUserPrompt :=
           jsReplaceAll (jsReplaceAll replyTpl "\x7b\x7buserInput\x7d\x7d" message)
             "\x7b\x7bthinking_content\x7d\x7d" thinkingContent
         match netReply (replyCallMessages effectiveHistory message thinkingContent
             replyUserPrompt) with
         | Except.error e => Except.error (wrapStage "对话失败 (回答阶段): " e)
         | Except.ok rawReply =>
           Except.ok (thinkingContent, jsTrim (stripThinkingBlock (jsTrim rawReply))))
    | _, _ => Except.error (ChatErr.failure "人格提示词结构无效，缺少思考或回答模板。")

/-- A 6-message (3-turn) history, the shape of the claim's scenario. -/
def sampleHistory : List ChatMessage :=
  [⟨Role.user, "u1", none⟩, ⟨Role.model, "m1", none⟩, ⟨Role.user, "u2", none⟩,
   ⟨Role.model, "m2", none⟩, ⟨Role.user, "u3", none⟩, ⟨Role.model, "m3", none⟩]

/-- A parameter config holding only a `"default"` entry with the given
`maxHistoryTurns`. -/
def onlyDefaultConfig (m : Nat) : String → Option PersonaParameters :=
  fun s => if s = "default" then some ⟨1, 1, m⟩ else none

/-- A minimal well-formed structured persona prompt. -/
def samplePersonaPrompt : String :=
  "<THINKING_PROMPT>T</THINKING_PROMPT><REPLY_PROMPT>R</REPLY_PROMPT>"

/-! Embedding of the chat handlers' history-commit logic. The per-turn network
work is a single awaited call whose outcome (`Except ChatErr` of a thinking
and a reply) abstracts the persona chat call; `abortedAfter` is the state of
`controller.signal.aborted` at the post-call check. -/

/-- Embedding of `handleSendMessage` (direct chat): guard on blank input, push
the user message into the active persona's history, start the call, and append
the model reply only if the call succeeded and the signal is not aborted.
Returns the resulting history and the error banner (if any). -/
def handleSendMessage (history : List ChatMessage) (userInput : String)
    (callOutcome : Except ChatErr (Option String × String)) (abortedAfter : Bool) :
    List ChatMessage × Option String :=
  if jsTrim userInput = "" then (history, none)
  else
    let newHistory := history ++ [⟨Role.user, userInput, none⟩]
    match callOutcome with
    | Except.ok (t, r) =>
      if abortedAfter then (newHistory, none)
      else (newHistory ++ [⟨Role.model, r, t⟩], none)
    | Except.error ChatErr.aborted => (newHistory, some "对话已由用户手动停止。")
    | Except.error (ChatErr.failure m) => (newHistory, some m)

/-- Embedding of the observer-mode loop of `handleStartConversation`:
alternating turns up to the cap, checking the signal at the loop top and
after each call; a successful, non-aborted turn appends the incoming message
and the reply to the speaker's history and the incoming message to the
opponent's; any failure or abort ends the loop with the histories exactly as
committed by the previous turns. `outcomes i` is turn `i`'s call outcome;
`abortTop i` / `abortAfter i` the signal at its two checks. -/
def observerLoop (outcomes : Nat → Except ChatErr (Option String × String))
    (abortTop abortAfter : Nat → Bool) :
    Nat → Nat → List ChatMessage → List ChatMessage → String →
    List ChatMessage × List ChatMessage × Option String
  | 0, _, hA, hB, _ => (hA, hB, none)
  | fuel + 1, i, hA, hB, cur =>
    if abortTop i then (hA, hB, none)
    else
      match outcomes i with
      | Except.error ChatErr.aborted => (hA, hB, some "对话已由用户手动停止。")
      | Except.error (ChatErr.failure m) => (hA, hB, some m)
      | Except.ok (t, r) =>
        if abortAfter i then (hA, hB, none)
        else
          let userEntry : ChatMessage := ⟨Role.user, cur, none⟩
          let modelEntry : ChatMessage := ⟨Role.model, r, t⟩
          if i % 2 == 0 then
            observerLoop outcomes abortTop abortAfter fuel (i + 1)
              (hA ++ [userEntry, modelEntry]) (hB ++ [userEntry]) r
          else
            observerLoop outcomes abortTop abortAfter fuel (i + 1)
              (hA ++ [userEntry]) (hB ++ [userEntry, modelEntry]) r

/-- Embedding of `handleStartConversation`: both histories start empty, the
initial topic is the first incoming message, `MAX_TURNS = 10`. -/
def handleStartConversation (initialTopic : String)
    (outcomes : Nat → Except ChatErr (Option String × String))
    (abortTop abortAfter : Nat → Bool) :
    List ChatMessage × List ChatMessage × Option String :=
  observerLoop outcomes abortTop abortAfter 10 0 [] [] initialTopic

/-! Embedding of the cancellation-token management. Abort controllers are
numbered; the state records the current generation-kind and conversation-kind
controller (if any), the set of aborted controller ids, and the next fresh id.
`handleGenerateStart` is the token-management prelude of `handleGenerate`
(create a controller only when none exists); `conversationStart` is the shared
prelude of `handleSendMessage` and `handleStartConversation` (abort the
previous controller, then install a fresh one — before any request is
issued); `handleStopGeneration` aborts and clears the generation token. Each
returns the controller whose signal the subsequent requests use. -/

structure ControllerState where
  genCtrl : Option Nat
  convCtrl : Option Nat
  abortedIds : List Nat
  nextId : Nat
deriving DecidableEq

def abortCtrl (s : ControllerState) (c : Nat) : ControllerState :=
  { s with abortedIds := c :: s.abortedIds }

/-- `if (!generationController.current) { generationController.current = new
AbortController(); } const signal = generationController.current.signal;`. -/
def handleGenerateStart (s : ControllerState) : ControllerState × Nat :=
  match s.genCtrl with
  | some c => (s, c)
  | none => ({ s with genCtrl := some s.nextId, nextId := s.nextId + 1 }, s.nextId)

/-- `if (conversationController.current) conversationController.current.abort();
const controller = new AbortController(); conversationController.current =
controller;`. -/
def conversationStart (s : ControllerState) : ControllerState × Nat :=
  let s1 := match s.convCtrl with
    | some c => abortCtrl s c
    | none => s
  ({ s1 with convCtrl := some s1.nextId, nextId := s1.nextId + 1 }, s1.nextId)

/-- `handleStopGeneration`: abort and clear the generation token. -/
def handleStopGeneration (s : ControllerState) : ControllerState :=
  match s.genCtrl with
  | some c => { abortCtrl s c with genCtrl := none }
  | none => s

section BatchLemmas

variable {T E R : Type}

theorem mapIdxFrom_length (g : Nat → T → R) : ∀ (i : Nat) (l : List T),
    (mapIdxFrom g i l).length = l.length
  | _, [] => rfl
  | i, _ :: xs => by simp [mapIdxFrom, mapIdxFrom_length g (i + 1) xs]

theorem mapIdxFrom_get? (g : Nat → T → R) : ∀ (i : Nat) (l : List T) (j : Nat),
    (mapIdxFrom g i l).get? j = (l.get? j).map (fun t => g (i + j) t) := by
  intro i l
  induction l generalizing i with
  | nil => intro j; simp [mapIdxFrom]
  | cons x xs ih =>
    intro j
    cases j with
    | zero => simp [mapIdxFrom]
    | succ j =>
      simp only [mapIdxFrom, List.get?]
      rw [ih (i + 1) j]
      have : i + 1 + j = i + (j + 1) := by omega
      rw [this]

theorem mapIdxFrom_take_drop (g : Nat → T → R) (n : Nat) : ∀ (l : List T) (i : Nat),
    mapIdxFrom g i l = mapIdxFrom g i (l.take n) ++ mapIdxFrom g (i + n) (l.drop n) := by
  induction n with
  | zero => intro l i; simp [mapIdxFrom]
  | succ n ih =>
    intro l i
    cases l with
    | nil => simp [mapIdxFrom]
    | cons x xs =>
      simp only [List.take, List.drop, mapIdxFrom, List.cons_append]
      rw [ih xs (i + 1)]
      have : i + 1 + n = i + (n + 1) := by omega
      rw [this]

theorem promiseAll_ok_of_pointwise (p : T → Nat → Except E R) (g : Nat → T → R) :
    ∀ (l : List T) (i : Nat),
    (∀ (j : Nat) (hj : j < l.length), p (l.get ⟨j, hj⟩) (i + j) = Except.ok (g (i + j) (l.get ⟨j, hj⟩))) →
    promiseAll (batchCalls p i l) = Except.ok (mapIdxFrom g i l) := by
  intro l
  induction l with
  | nil => intro i _; rfl
  | cons x xs ih =>
    intro i h
    have h0 := h 0 (by simp)
    simp only [List.get] at h0
    have hrest : ∀ (j : Nat) (hj : j < xs.length),
        p (xs.get ⟨j, hj⟩) (i + 1 + j) = Except.ok (g (i + 1 + j) (xs.get ⟨j, hj⟩)) := by
      intro j hj
      have := h (j + 1) (by simpa using Nat.succ_lt_succ hj)
      simp only [List.get] at this
      have harith : i + (j + 1) = i + 1 + j := by omega
      rw [harith] at this
      exact this
    simp only [batchCalls, mapIdxFrom]
    rw [show i + 0 = i from rfl] at h0
    rw [h0, promiseAll, ih (i + 1) hrest]

theorem goB_ok_of_pointwise (p : T → Nat → Except E R) (g : Nat → T → R) (b tb : Nat) :
    ∀ (fuel : Nat) (xs : List T) (i : Nat), xs.length ≤ fuel →
    (∀ (j : Nat) (hj : j < xs.length), p (xs.get ⟨j, hj⟩) (i + j) = Except.ok (g (i + j) (xs.get ⟨j, hj⟩))) →
    (goB p b tb fuel xs i).fst = Except.ok (mapIdxFrom g i xs) := by
  intro fuel
  induction fuel with
  | zero =>
    intro xs i hlen _
    cases xs with
    | nil => rfl
    | cons x xs => simp at hlen
  | succ fuel ih =>
    intro xs i hlen h
    cases xs with
    | nil => rfl
    | cons x xs =>
      have hchunk : ∀ (j : Nat) (hj : j < (x :: xs.take b).length),
          p ((x :: xs.take b).get ⟨j, hj⟩) (i + j)
            = Except.ok (g (i + j) ((x :: xs.take b).get ⟨j, hj⟩)) := by
        intro j hj
        have hlt : j < (x :: xs).length := by
          simp only [List.length_cons, List.length_take] at hj ⊢
          omega
        have hget : (x :: xs.take b).get ⟨j, hj⟩ = (x :: xs).get ⟨j, hlt⟩ := by
          cases j with
          | zero => rfl
          | succ j =>
            simp only [List.get]
            have hj' : j < b := by
              simp only [List.length_cons, List.length_take] at hj
              omega
            exact List.getElem_take _
        rw [hget]
        exact h j hlt
      have hall := promiseAll_ok_of_pointwise p g (x :: xs.take b) i hchunk
      have hrest : ∀ (j : Nat) (hj : j < (xs.drop b).length),
          p ((xs.drop b).get ⟨j, hj⟩) (i + (b + 1) + j)
            = Except.ok (g (i + (b + 1) + j) ((xs.drop b).get ⟨j, hj⟩)) := by
        intro j hj
        have hj' : b + j < xs.length := by
          simp only [List.length_drop] at hj
          omega
        have hget : (xs.drop b).get ⟨j, hj⟩ = xs.get ⟨b + j, hj'⟩ := by
          exact List.getElem_drop _
        have hlt : b + j + 1 < (x :: xs).length := by simp; omega
        have hget2 : (x :: xs).get ⟨b + j + 1, hlt⟩ = xs.get ⟨b + j, hj'⟩ := rfl
        rw [hget, ← hget2]
        have := h (b + j + 1) hlt
        have harith : i + (b + j + 1) = i + (b + 1) + j := by omega
        rw [harith] at this
        exact this
      have hlen' : (xs.drop b).length ≤ fuel := by
        simp only [List.length_drop]
        simp only [List.length_cons] at hlen
        omega
      have ihr := ih (xs.drop b) (i + (b + 1)) hlen' hrest
      simp only [goB]
      rw [hall]
      simp only []
      rw [ihr]
      simp only [Except.map]
      rw [mapIdxFrom_take_drop g (b + 1) (x :: xs) i]
      simp [mapIdxFrom, List.take, List.drop]

theorem isError_map {E R S : Type} (f : R → S) (x : Except E R) :
    isError (Except.map f x) = isError x := by
  cases x <;> rfl

theorem promiseAll_isError_of_mem {E R : Type} :
    ∀ (l : List (Except E R)) (x : Except E R), x ∈ l → isError x = true →
    isError (promiseAll l) = true := by
  intro l
  induction l with
  | nil => intro x hx; simp at hx
  | cons e rest ih =>
    intro x hx herr
    cases e with
    | error _ => rfl
    | ok r =>
      rcases List.mem_cons.mp hx with h | h
      · subst h; simp [isError] at herr
      · have := ih x h herr
        simp only [promiseAll]
        cases hall : promiseAll rest with
        | error _ => rfl
        | ok _ => rw [hall] at this; simp [isError] at this

theorem batchCalls_get_mem {T E R : Type} (p : T → Nat → Except E R) :
    ∀ (l : List T) (i j : Nat) (hj : j < l.length),
    p (l.get ⟨j, hj⟩) (i + j) ∈ batchCalls p i l := by
  intro l
  induction l with
  | nil => intro i j hj; simp at hj
  | cons x xs ih =>
    intro i j hj
    cases j with
    | zero => simp [batchCalls, List.get]
    | succ j =>
      have hj' : j < xs.length := by simpa using Nat.lt_of_succ_lt_succ hj
      have := ih (i + 1) j hj'
      have harith : i + (j + 1) = i + 1 + j := by omega
      simp only [List.get, batchCalls, harith]
      exact List.mem_cons_of_mem _ this

theorem callEvents_mem_bound : ∀ (n i m : Nat),
    BatchEvent.call m ∈ callEvents i n → i ≤ m ∧ m < i + n := by
  intro n
  induction n with
  | zero => intro i m h; simp [callEvents] at h
  | succ n ih =>
    intro i m h
    simp only [callEvents, List.mem_cons] at h
    rcases h with h | h
    · cases h; omega
    · have := ih (i + 1) m h; omega

theorem goB_fail {T E R : Type} (p : T → Nat → Except E R) (b tb : Nat) :
    ∀ (fuel : Nat) (xs : List T) (i j : Nat) (_ : xs.length ≤ fuel) (hj : j < xs.length),
    isError (p (xs.get ⟨j, hj⟩) (i + j)) = true →
    isError (goB p b tb fuel xs i).fst = true ∧
    ∀ m, BatchEvent.call m ∈ (goB p b tb fuel xs i).snd →
      m < i + (j / (b + 1) + 1) * (b + 1) := by
  intro fuel
  induction fuel with
  | zero =>
    intro xs i j hlen hj _
    have : xs = [] := List.length_eq_zero.mp (Nat.le_zero.mp hlen)
    subst this; simp at hj
  | succ fuel ih =>
    intro xs i j hlen hj herr
    cases xs with
    | nil => simp at hj
    | cons x xs =>
      have hchunkb : (x :: xs.take b).length ≤ b + 1 := by
        simp only [List.length_cons, List.length_take]
        omega
      have hbound1 : b + 1 ≤ (j / (b + 1) + 1) * (b + 1) :=
        Nat.le_mul_of_pos_left _ (Nat.succ_pos _)
      cases hall : promiseAll (batchCalls p i (x :: xs.take b)) with
      | error e =>
        constructor
        · simp [goB, hall, isError]
        · intro m hm
          simp only [goB, hall, List.mem_cons] at hm
          rcases hm with hm | hm
          · cases hm
          · have := callEvents_mem_bound _ _ _ hm
            omega
      | ok rs =>
        -- the failing index cannot be in the first chunk, otherwise
        -- `Promise.all` over the chunk would have rejected
        have hjchunk : ¬ j ≤ b := by
          intro hjb
          have hjlen : j ≤ xs.length := by
            simp only [List.length_cons] at hj; omega
          have hjc : j < (x :: xs.take b).length := by
            simp only [List.length_cons, List.length_take]; omega
          have hget : (x :: xs.take b).get ⟨j, hjc⟩ = (x :: xs).get ⟨j, hj⟩ := by
            cases j with
            | zero => rfl
            | succ j =>
              simp only [List.get]
              exact List.getElem_take _
          have hmem := batchCalls_get_mem p (x :: xs.take b) i j hjc
          rw [hget] at hmem
          have := promiseAll_isError_of_mem _ _ hmem herr
          rw [hall] at this
          simp [isError] at this
        have hjb : b + 1 ≤ j := by omega
        obtain ⟨jm, rfl⟩ : ∃ jm, j = jm + 1 := ⟨j - 1, by omega⟩
        have hjm : b ≤ jm := by omega
        have hj2 : jm - b < (xs.drop b).length := by
          simp only [List.length_drop]
          simp only [List.length_cons] at hj
          omega
        have hjm2 : jm < xs.length := by simp only [List.length_cons] at hj; omega
        have hget : (xs.drop b).get ⟨jm - b, hj2⟩ = xs.get ⟨jm, hjm2⟩ := by
          have h1 : (xs.drop b).get ⟨jm - b, hj2⟩ = xs.get ⟨b + (jm - b), by
            simp only [List.length_drop] at hj2; omega⟩ := List.getElem_drop _
          rw [h1]
          congr 1
          simp [Fin.mk.injEq]
          omega
        have herr' : isError (p ((xs.drop b).get ⟨jm - b, hj2⟩)
            (i + (b + 1) + (jm - b))) = true := by
          rw [hget]
          have : i + (b + 1) + (jm - b) = i + (jm + 1) := by omega
          rw [this]
          exact herr
        have hlen' : (xs.drop b).length ≤ fuel := by
          simp only [List.length_drop]
          simp only [List.length_cons] at hlen
          omega
        have ihr := ih (xs.drop b) (i + (b + 1)) (jm - b) hlen' hj2 herr'
        have hdiv : (jm + 1) / (b + 1) = (jm - b) / (b + 1) + 1 := by
          have : jm + 1 = (jm - b) + (b + 1) := by omega
          rw [this, Nat.add_div_right _ (Nat.succ_pos b)]
        constructor
        · simp only [goB, hall]
          rw [isError_map]
          exact ihr.1
        · intro m hm
          simp only [goB, hall, List.mem_append, List.mem_cons] at hm
          have hmul : ((jm - b) / (b + 1) + 1 + 1) * (b + 1)
              = ((jm - b) / (b + 1) + 1) * (b + 1) + (b + 1) := by ring
          rcases hm with (hm | hm) | hm
          · cases hm
          · have := callEvents_mem_bound _ _ _ hm
            rw [hdiv, hmul]
            omega
          · have := ihr.2 m hm
            rw [hdiv, hmul]
            omega

end BatchLemmas

/-- C1: for every items list, every processor and every `batchSize = b + 1 ≥ 1`,
if every processor call resolves (the processor equals `Except.ok` of a value
function `g`), then `processInBatches` resolves with a list of the same length
as `items` whose `j`-th element is the value produced by `processor(items[j], j)`:
output order equals input order, within and across chunks. Completion latency
does not exist in this pure embedding; `Promise.all` (see `promiseAll`) is
positional by construction, which is exactly the order argument of the spec. -/
theorem c1_processInBatches_order {T E R : Type} (items : List T)
    (p : T → Nat → Except E R) (g : T → Nat → R) (b : Nat)
    (h : ∀ t i, p t i = Except.ok (g t i)) :
    ∃ res, processInBatches items p (b + 1) = Except.ok res ∧
      res.length = items.length ∧
      ∀ j, res.get? j = (items.get? j).map (fun t => g t j) := by
  refine ⟨mapIdxFrom (fun i t => g t i) 0 items, ?_, mapIdxFrom_length _ _ _, ?_⟩
  · unfold processInBatches processInBatchesTr
    exact goB_ok_of_pointwise p (fun i t => g t i) b _ items.length items 0 le_rfl
      (fun j hj => h _ _)
  · intro j
    rw [mapIdxFrom_get?]
    simp

/-- Witness for C1 at a concrete input: three items, batch size 2. -/
theorem c1_processInBatches_order_witness :
    ∃ res, processInBatches [10, 20, 30]
        (fun t i => (Except.ok (t + i) : Except Unit Nat)) (1 + 1) = Except.ok res ∧
      res.length = [10, 20, 30].length ∧
      ∀ j, res.get? j = ([10, 20, 30].get? j).map (fun t => t + j) :=
  c1_processInBatches_order [10, 20, 30] _ (fun t i => t + i) 1 (fun _ _ => rfl)

/-- C10: for an empty items array and any `batchSize = b + 1 ≥ 1`,
`processInBatches` resolves to the empty array, the event trace is empty (the
processor and the `onBatchStart` callback are never invoked), and the computed
total-batch count `Math.ceil(0 / batchSize)` is `0`. -/
theorem c10_empty_items {T E R : Type} (b : Nat) (p : T → Nat → Except E R) :
    processInBatches ([] : List T) p (b + 1) = Except.ok [] ∧
    batchEvents ([] : List T) p (b + 1) = [] ∧
    totalBatchCount 0 (b + 1) = 0 := by
  refine ⟨rfl, rfl, ?_⟩
  unfold totalBatchCount
  have h1 : 0 + (b + 1) - 1 = b := by omega
  rw [h1]
  exact Nat.div_eq_of_lt (by omega)

/-- C2: for every items list and `batchSize = b + 1 ≥ 1`, if the processor
rejects for some item whose original index `j` lies in chunk `k` (the indices
`[k * batchSize, (k+1) * batchSize)`), then the whole run rejects (so no
partial result is returned: a rejected run carries no already-resolved chunk
results), and the processor is never invoked for any item of chunk `k + 1` or
later (every `call` event of the trace has index below `(k+1) * batchSize`). -/
theorem c2_fail_fast {T E R : Type} (items : List T) (p : T → Nat → Except E R)
    (b k j : Nat) (hlo : k * (b + 1) ≤ j) (hhi : j < (k + 1) * (b + 1))
    (hj : j < items.length)
    (herr : isError (p (items.get ⟨j, hj⟩) j) = true) :
    isError (processInBatches items p (b + 1)) = true ∧
    ∀ m, BatchEvent.call m ∈ batchEvents items p (b + 1) → m < (k + 1) * (b + 1) := by
  have herr' : isError (p (items.get ⟨j, hj⟩) (0 + j)) = true := by
    rw [Nat.zero_add]; exact herr
  have h := goB_fail p b (totalBatchCount items.length (b + 1)) items.length items 0 j
    le_rfl hj herr'
  have hdivk : j / (b + 1) = k := by
    have hge : k ≤ j / (b + 1) := (Nat.le_div_iff_mul_le (Nat.succ_pos b)).mpr hlo
    have hlt : j / (b + 1) < k + 1 := (Nat.div_lt_iff_lt_mul (Nat.succ_pos b)).mpr (by
      calc j < (k + 1) * (b + 1) := hhi
        _ = (k + 1) * (b + 1) := rfl)
    omega
  constructor
  · exact h.1
  · intro m hm
    have := h.2 m hm
    rw [hdivk] at this
    omega

/-- Witness for C2: items `[1,2,3,4]`, batch size 2, the processor rejects on
the item at index 2 (chunk 1); the run rejects. -/
theorem c2_fail_fast_witness :
    isError (processInBatches [1, 2, 3, 4]
      (fun t _ => if t = 3 then Except.error () else Except.ok t) (1 + 1)) = true :=
  (c2_fail_fast [1, 2, 3, 4] _ 1 1 2 (by decide) (by decide) (by decide)
    (by decide)).1

section PfxLemmas

variable {P : Type} (config : String → Option P)

theorem pfxLoop_isSome (parts : List String) (d : P)
    (hdef : config "default" = some d) :
    ∀ n, (pfxLoop parts config n).isSome = true := by
  intro n
  induction n with
  | zero => simp [pfxLoop, hdef]
  | succ n ih =>
    simp only [pfxLoop]
    cases hc : config (joinWith "-" (parts.take (n + 1))) with
    | some p => rfl
    | none => exact ih

theorem pfxLoop_eq_of_hit (parts : List String) :
    ∀ (n i : Nat), 1 ≤ i → i ≤ n →
    (config (joinWith "-" (parts.take i))).isSome = true →
    (∀ i2, i < i2 → i2 ≤ n → config (joinWith "-" (parts.take i2)) = none) →
    pfxLoop parts config n = config (joinWith "-" (parts.take i)) := by
  intro n
  induction n with
  | zero => intro i h1 h2; omega
  | succ n ih =>
    intro i h1 h2 hsome habove
    by_cases hi : i = n + 1
    · subst hi
      simp only [pfxLoop]
      cases hc : config (joinWith "-" (parts.take (n + 1))) with
      | some p => rfl
      | none => rw [hc] at hsome; simp at hsome
    · have hi' : i ≤ n := by omega
      have hnone : config (joinWith "-" (parts.take (n + 1))) = none :=
        habove (n + 1) (by omega) (by omega)
      simp only [pfxLoop, hnone]
      exact ih i h1 hi' hsome (fun i2 hlt hle => habove i2 hlt (by omega))

theorem pfxLoop_default (parts : List String) :
    ∀ n, (∀ i, 1 ≤ i → i ≤ n → config (joinWith "-" (parts.take i)) = none) →
    pfxLoop parts config n = config "default" := by
  intro n
  induction n with
  | zero => intro _; rfl
  | succ n ih =>
    intro hall
    have hnone := hall (n + 1) (by omega) (by omega)
    simp only [pfxLoop, hnone]
    exact ih (fun i h1 h2 => hall i h1 (by omega))

end PfxLemmas

/-- C3: `getEffectiveParameters` is a pure total function: given a config
containing `"default"` it always returns a value; for nonempty code it returns
the config entry at the longest dash-separated segment sequence of the code
that is a key of config; it returns `config["default"]` when no such key
matches or the code is empty. In particular, for the config
`{"default": P0, "1": P1, "1-3": P2}`, code `"1-3-2"` resolves to `P2`,
`"1-9"` to `P1`, `"9"` to `P0` and `""` to `P0`. -/
theorem c3_getEffectiveParameters {P : Type} (config : String → Option P) (d : P)
    (hdef : config "default" = some d) (code : String) :
    (getEffectiveParameters code config).isSome = true ∧
    (code ≠ "" → ∀ i, 1 ≤ i → i ≤ (jsSplit code "-").length →
      (config (joinWith "-" ((jsSplit code "-").take i))).isSome = true →
      (∀ i2, i < i2 → i2 ≤ (jsSplit code "-").length →
        config (joinWith "-" ((jsSplit code "-").take i2)) = none) →
      getEffectiveParameters code config
        = config (joinWith "-" ((jsSplit code "-").take i))) ∧
    ((∀ i, 1 ≤ i → i ≤ (jsSplit code "-").length →
        config (joinWith "-" ((jsSplit code "-").take i)) = none) →
      getEffectiveParameters code config = config "default") ∧
    (code = "" → getEffectiveParameters code config = config "default") ∧
    getEffectiveParameters "1-3-2" exampleParamConfig = some 2 ∧
    getEffectiveParameters "1-9" exampleParamConfig = some 1 ∧
    getEffectiveParameters "9" exampleParamConfig = some 0 ∧
    getEffectiveParameters "" exampleParamConfig = some 0 := by
  refine ⟨?_, ?_, ?_, ?_, by decide, by decide, by decide, by decide⟩
  · unfold getEffectiveParameters
    by_cases hc : code = ""
    · simp [hc, hdef]
    · simp only [if_neg hc]
      exact pfxLoop_isSome config _ d hdef _
  · intro hc i h1 h2 hsome habove
    unfold getEffectiveParameters
    simp only [if_neg hc]
    exact pfxLoop_eq_of_hit config _ _ i h1 h2 hsome habove
  · intro hall
    unfold getEffectiveParameters
    by_cases hc : code = ""
    · simp [hc]
    · simp only [if_neg hc]
      exact pfxLoop_default config _ _ hall
  · intro hc
    unfold getEffectiveParameters
    simp [hc]

/-- Witness for C3: the claim's own example config, resolving `"1-9"`. -/
theorem c3_getEffectiveParameters_witness :
    getEffectiveParameters "1-9" exampleParamConfig
      = exampleParamConfig (joinWith "-" ((jsSplit "1-9" "-").take 1)) :=
  (c3_getEffectiveParameters exampleParamConfig 0 rfl "1-9").2.1 (by decide) 1
    (by decide) (by decide) (by decide)
    (by
      intro i2 h1 h2
      have hlen : (jsSplit "1-9" "-").length = 2 := by decide
      rw [hlen] at h2
      have : i2 = 2 := by omega
      subst this
      decide)

/-- C9 counterexample: a response whose body is JSON with a top-level
`message` field (`{"message":"boom"}`) but whose `content-type` is
`text/plain`. The claim says the produced message is the `message` field
(`"boom"`), or at worst the raw response text or the HTTP status line; the
code keys JSON extraction off the content-type header and produces the
decorated diagnostic `Received unexpected error format: {"message":"boom"}`,
which is none of those. -/
theorem c9_counterexample :
    handleApiError ⟨404, "Not Found", some "text/plain",
        "\x7b\"message\":\"boom\"\x7d", some (Js.obj [("message", Js.str "boom")])⟩
      = "Received unexpected error format: \x7b\"message\":\"boom\"\x7d" ∧
    jsonTopMessage (Js.obj [("message", Js.str "boom")]) = some (Js.str "boom") ∧
    ("Received unexpected error format: \x7b\"message\":\"boom\"\x7d" ≠ "boom" ∧
     "Received unexpected error format: \x7b\"message\":\"boom\"\x7d"
       ≠ "\x7b\"message\":\"boom\"\x7d" ∧
     "Received unexpected error format: \x7b\"message\":\"boom\"\x7d"
       ≠ "HTTP Error: 404 Not Found") := by
  refine ⟨by decide, rfl, by decide, by decide, by decide⟩

/-- C9 amended: extraction is gated on the `content-type` header containing
`application/json` (not on the body being JSON). Under that gate, with a
parsed body: the message is the top-level `message` field if present and
truthy, else the nested `error.message` field if present and truthy, else the
diagnostic `Received unexpected JSON error format:` followed by the
re-stringified body; if parsing throws, `Failed to parse error response.
Status:` followed by the status code. Without the gate, `Received unexpected
error format:` followed by the raw response text (or `Empty response from
server` when it is empty). The fallbacks embed the text/status inside fixed
diagnostic strings; they are not the bare raw text or status line. -/
theorem c9_amended (r : HttpResponse) :
    (∀ ct, r.contentType = some ct → jsIncludes ct "application/json" = true →
      (∀ j, r.bodyJson = some j →
        (∀ m, jsonTopMessage j = some m → handleApiError r = jsToString m) ∧
        (jsonTopMessage j = none → ∀ m, jsonNestedMessage j = some m →
          handleApiError r = jsToString m) ∧
        (jsonTopMessage j = none → jsonNestedMessage j = none →
          handleApiError r = "Received unexpected JSON error format: " ++ stringifyJs j)) ∧
      (r.bodyJson = none →
        handleApiError r = "Failed to parse error response. Status: " ++ toString r.status)) ∧
    ((match r.contentType with
      | some ct => jsIncludes ct "application/json"
      | none => false) = false →
      handleApiError r = "Received unexpected error format: "
        ++ (if r.bodyText = "" then "Empty response from server" else r.bodyText)) := by
  constructor
  · intro ct hct hjson
    have hgate : (match r.contentType with
        | some ct => jsIncludes ct "application/json"
        | none => false) = true := by rw [hct]; exact hjson
    constructor
    · intro j hj
      refine ⟨?_, ?_, ?_⟩
      · intro m hm
        unfold handleApiError
        rw [hgate]
        simp only [if_true, hj]
        unfold jsonTopMessage at hm
        rw [hm]
      · intro hnone m hm
        unfold handleApiError
        rw [hgate]
        simp only [if_true, hj]
        unfold jsonTopMessage at hnone
        unfold jsonNestedMessage at hm
        rw [hnone, hm]
      · intro hnone1 hnone2
        unfold handleApiError
        rw [hgate]
        simp only [if_true, hj]
        unfold jsonTopMessage at hnone1
        unfold jsonNestedMessage at hnone2
        rw [hnone1, hnone2]
    · intro hj
      unfold handleApiError
      rw [hgate]
      simp only [if_true, hj]
  · intro hgate
    unfold handleApiError
    rw [hgate]
    simp

/-- Witness for C9 amended: a JSON-typed 500 response with body
`{"message":"quota exceeded"}` yields exactly that message. -/
theorem c9_amended_witness :
    handleApiError ⟨500, "Internal Server Error", some "application/json; charset=utf-8",
        "\x7b\"message\":\"quota exceeded\"\x7d",
        some (Js.obj [("message", Js.str "quota exceeded")])⟩
      = jsToString (Js.str "quota exceeded") :=
  ((((c9_amended _).1 "application/json; charset=utf-8" rfl (by decide)).1
    (Js.obj [("message", Js.str "quota exceeded")]) rfl).1 (Js.str "quota exceeded")
    rfl)

section PipelineLemmas

variable {T E R A B : Type}

theorem mapIdxFrom_const (g : T → R) : ∀ (i : Nat) (l : List T),
    mapIdxFrom (fun _ t => g t) i l = l.map g
  | _, [] => rfl
  | i, x :: xs => by simp [mapIdxFrom, mapIdxFrom_const g (i + 1) xs]

theorem processInBatches_ok_mem (items : List T) (p : T → Nat → Except E R)
    (g : T → R) (b : Nat) (h : ∀ t, t ∈ items → ∀ i, p t i = Except.ok (g t)) :
    processInBatches items p (b + 1) = Except.ok (items.map g) := by
  unfold processInBatches processInBatchesTr
  have hgo := goB_ok_of_pointwise p (fun _ t => g t) b
    (totalBatchCount items.length (b + 1)) items.length items 0 le_rfl
    (fun j hj => h _ (items.get_mem _ _) _)
  rw [hgo, mapIdxFrom_const]

theorem listFlatMap_map (g : B → List R) (f : A → B) : ∀ (l : List A),
    listFlatMap g (l.map f) = listFlatMap (fun a => g (f a)) l
  | [] => rfl
  | x :: xs => by simp [listFlatMap, listFlatMap_map g f xs]

theorem updRec_same (rec : String → Option KeywordResult) (k : String)
    (v : KeywordResult) : updRec rec k v k = some v := by
  simp [updRec]

theorem updRec_other (rec : String → Option KeywordResult) (k s : String)
    (v : KeywordResult) (h : s ≠ k) : updRec rec k v s = rec s := by
  simp [updRec, h]

theorem buildFold_not_mem :
    ∀ (rs : List (String × List Concept)) (acc : String → Option KeywordResult)
      (s : String), s ∉ rs.map Prod.fst →
    rs.foldl (fun a kc => updRec a kc.fst ⟨some kc.snd, none⟩) acc s = acc s := by
  intro rs
  induction rs with
  | nil => intro acc s _; rfl
  | cons kc rest ih =>
    intro acc s hs
    simp only [List.map_cons, List.mem_cons] at hs
    push_neg at hs
    simp only [List.foldl_cons]
    rw [ih _ s hs.2, updRec_other _ _ _ _ hs.1]

theorem buildFold_lookup :
    ∀ (rs : List (String × List Concept)) (acc : String → Option KeywordResult)
      (kw : String) (cs : List Concept), (rs.map Prod.fst).Nodup → (kw, cs) ∈ rs →
    rs.foldl (fun a kc => updRec a kc.fst ⟨some kc.snd, none⟩) acc kw
      = some ⟨some cs, none⟩ := by
  intro rs
  induction rs with
  | nil => intro acc kw cs _ hmem; simp at hmem
  | cons kc rest ih =>
    intro acc kw cs hnd hmem
    simp only [List.map_cons, List.nodup_cons] at hnd
    simp only [List.foldl_cons]
    rcases List.mem_cons.mp hmem with heq | hmem'
    · subst heq
      rw [buildFold_not_mem rest _ kw (by simpa using hnd.1), updRec_same]
    · exact ih _ kw cs hnd.2 hmem'

theorem secAfter_some : ∀ (ds : List (List Concept)) (acc : List Concept),
    secAfter (some acc) ds = some (acc ++ listFlatMap id ds) := by
  intro ds
  induction ds with
  | nil => intro acc; simp [secAfter, listFlatMap]
  | cons d ds ih =>
    intro acc
    simp only [secAfter, Option.getD_some, listFlatMap]
    rw [ih (acc ++ d), List.append_assoc]
    rfl

theorem applySecondary_lookup :
    ∀ (rs : List (String × List Concept)) (acc : String → Option KeywordResult)
      (kw : String),
    applySecondary rs acc kw =
      match acc kw with
      | none => none
      | some e => some ⟨e.primary,
          secAfter e.secondary ((rs.filter (fun r => r.fst == kw)).map Prod.snd)⟩ := by
  intro rs
  induction rs with
  | nil =>
    intro acc kw
    cases h : acc kw <;> simp [applySecondary, List.foldl_nil, h, secAfter]
  | cons r rest ih =>
    intro acc kw
    have hstep : applySecondary (r :: rest) acc = applySecondary rest (pushSecondary acc r) := by
      simp [applySecondary, List.foldl_cons]
    rw [hstep, ih]
    by_cases hk : r.fst = kw
    · subst hk
      cases hacc : acc r.fst with
      | none =>
        have hpush : pushSecondary acc r = acc := by
          simp [pushSecondary, hacc]
        rw [hpush, hacc]
      | some e =>
        have hpush : pushSecondary acc r
            = updRec acc r.fst ⟨e.primary, some (e.secondary.getD [] ++ r.snd)⟩ := by
          simp [pushSecondary, hacc]
        have hfil : (r :: rest).filter (fun q => q.fst == r.fst)
            = r :: rest.filter (fun q => q.fst == r.fst) := by
          simp [List.filter_cons]
        rw [hpush, updRec_same, hfil]
        simp only [List.map_cons, secAfter]
    · have hlook : pushSecondary acc r kw = acc kw := by
        unfold pushSecondary
        cases hacc : acc r.fst with
        | none => rfl
        | some e => exact updRec_other _ _ _ _ (fun h => hk h.symm)
      rw [hlook]
      have hfil : (r :: rest).filter (fun q => q.fst == kw)
          = rest.filter (fun q => q.fst == kw) := by
        simp [List.filter_cons, hk]
      rw [hfil]

theorem mainConcepts_filter_not_mem
    (net1 : String → Except String (Option (List Concept))) :
    ∀ (ks : List String) (kw : String), kw ∉ ks →
    (mainConceptsOf net1 ks).filter (fun p => p.fst == kw) = [] := by
  intro ks
  induction ks with
  | nil => intro kw _; rfl
  | cons k rest ih =>
    intro kw hkw
    simp only [List.mem_cons] at hkw
    push_neg at hkw
    simp only [mainConceptsOf, listFlatMap, List.filter_append]
    rw [List.filter_map]
    have hpred : (fun p => p.fst == kw) ∘ (fun c => ((k, c) : String × Concept))
        = fun _ => false := by
      funext c
      simp [Function.comp]
      exact fun h => hkw.1 h.symm
    rw [hpred]
    simp only [List.filter_false, List.map_nil, List.nil_append]
    exact ih kw hkw.2

theorem mainConcepts_filter (net1 : String → Except String (Option (List Concept))) :
    ∀ (ks : List String) (kw : String), ks.Nodup → kw ∈ ks →
    (mainConceptsOf net1 ks).filter (fun p => p.fst == kw)
      = (net1val net1 kw).map (fun c => (kw, c)) := by
  intro ks
  induction ks with
  | nil => intro kw _ hmem; simp at hmem
  | cons k rest ih =>
    intro kw hnd hmem
    simp only [List.nodup_cons] at hnd
    simp only [mainConceptsOf, listFlatMap, List.filter_append]
    rcases List.mem_cons.mp hmem with heq | hmem'
    · subst heq
      have h1 : ((net1val net1 kw).map (fun c => ((kw, c) : String × Concept))).filter
          (fun p => p.fst == kw) = (net1val net1 kw).map (fun c => (kw, c)) := by
        rw [List.filter_map]
        have hpred : (fun p => p.fst == kw) ∘ (fun c => ((kw, c) : String × Concept))
            = fun _ => true := by
          funext c; simp [Function.comp]
        rw [hpred, List.filter_true]
      rw [h1]
      have h2 := mainConcepts_filter_not_mem net1 rest kw hnd.1
      simp only [mainConceptsOf] at h2
      rw [h2, List.append_nil]
    · have hne : k ≠ kw := fun h => hnd.1 (h ▸ hmem')
      have h1 : ((net1val net1 k).map (fun c => ((k, c) : String × Concept))).filter
          (fun p => p.fst == kw) = [] := by
        rw [List.filter_map]
        have hpred : (fun p => p.fst == kw) ∘ (fun c => ((k, c) : String × Concept))
            = fun _ => false := by
          funext c; simp [Function.comp]; exact fun h => hne h
        rw [hpred]
        simp
      rw [h1, List.nil_append]
      exact ih kw hnd.2 hmem'

end PipelineLemmas

/-- C4: a Round-0 rejection with message `msg` does not reject the pipeline
(given that Rounds 1 and 2 themselves resolve): the error is caught, the log
records the failure line, the summary becomes the placeholder
`文稿总结失败: msg`, and Rounds 1 and 2 still run with that placeholder
substituted as `{{documentSummary}}` into every Round-1 and Round-2 prompt. -/
theorem c4_round0_degraded (textContent : String) (keywords : List String) (b : Nat)
    (r0User r1User r2User msg : String)
    (net1 : String → Except String (Option (List Concept)))
    (net2 : String × Concept → Except String (Option (List Concept)))
    (h1 : ∀ kw, ∃ o, net1 kw = Except.ok o)
    (h2 : ∀ p, ∃ o, net2 p = Except.ok o) :
    ∃ out, performComprehensiveAnalysis textContent keywords (b + 1) r0User r1User r2User
        (Except.error msg) net1 net2 = Except.ok out ∧
      out.preliminarySummary = "文稿总结失败: " ++ msg ∧
      ("第0轮: 文稿总结失败 - " ++ msg) ∈ out.logs ∧
      out.round1Prompts = keywords.map (fun kw =>
        (kw, round1Prompt r1User textContent ("文稿总结失败: " ++ msg) kw)) ∧
      out.round2Prompts = (mainConceptsOf net1 keywords).map (fun p =>
        (p.snd.name, round2Prompt r2User textContent ("文稿总结失败: " ++ msg) p.fst p.snd)) := by
  have hr1 : processInBatches keywords
      (fun kw (_ : Nat) =>
        match net1 kw with
        | Except.ok o => Except.ok (kw, o.getD [])
        | Except.error m => Except.error ("主概念提取失败 (" ++ kw ++ "): " ++ m))
      (b + 1) = Except.ok (keywords.map (fun kw => (kw, net1val net1 kw))) := by
    apply processInBatches_ok_mem
    intro t _ i
    obtain ⟨o, ho⟩ := h1 t
    simp [ho, net1val]
  have hflat : listFlatMap (fun kc => kc.snd.map (fun c => (kc.fst, c)))
      (keywords.map (fun kw => (kw, net1val net1 kw))) = mainConceptsOf net1 keywords := by
    rw [listFlatMap_map]
    rfl
  simp only [performComprehensiveAnalysis, hr1, hflat]
  by_cases hlen : (mainConceptsOf net1 keywords).length > 0
  · have hr2 : processInBatches (mainConceptsOf net1 keywords)
        (fun p (_ : Nat) =>
          match net2 p with
          | Except.ok o => Except.ok (p.fst, o.getD [])
          | Except.error m => Except.error ("次级概念深化失败 (" ++ p.snd.name ++ "): " ++ m))
        (b + 1)
        = Except.ok ((mainConceptsOf net1 keywords).map (fun p => (p.fst, net2val net2 p))) := by
      apply processInBatches_ok_mem
      intro t _ i
      obtain ⟨o, ho⟩ := h2 t
      simp [ho, net2val]
    rw [if_pos hlen, hr2]
    exact ⟨_, rfl, rfl, by simp, rfl, rfl⟩
  · rw [if_neg hlen]
    refine ⟨_, rfl, rfl, by simp, rfl, ?_⟩
    have : mainConceptsOf net1 keywords = [] :=
      List.length_eq_zero.mp (by omega)
    simp [this]

/-- Witness for C4: one keyword, both rounds resolving, Round 0 rejected. -/
theorem c4_round0_degraded_witness :
    ∃ out, performComprehensiveAnalysis "正文" ["关键词"] (0 + 1) "r0" "r1" "r2"
        (Except.error "HTTP 500") (fun _ => Except.ok none) (fun _ => Except.ok none)
        = Except.ok out ∧
      out.preliminarySummary = "文稿总结失败: " ++ "HTTP 500" ∧
      ("第0轮: 文稿总结失败 - " ++ "HTTP 500") ∈ out.logs ∧
      out.round1Prompts = ["关键词"].map (fun kw =>
        (kw, round1Prompt "r1" "正文" ("文稿总结失败: " ++ "HTTP 500") kw)) ∧
      out.round2Prompts = (mainConceptsOf (fun _ => Except.ok none) ["关键词"]).map (fun p =>
        (p.snd.name, round2Prompt "r2" "正文" ("文稿总结失败: " ++ "HTTP 500") p.fst p.snd)) :=
  c4_round0_degraded "正文" ["关键词"] 0 "r0" "r1" "r2" "HTTP 500" _ _
    (fun _ => ⟨none, rfl⟩) (fun _ => ⟨none, rfl⟩)

theorem mainConceptsOf_eq_nil (net1 : String → Except String (Option (List Concept))) :
    ∀ (ks : List String), (∀ k, k ∈ ks → net1val net1 k = []) →
    mainConceptsOf net1 ks = [] := by
  intro ks
  induction ks with
  | nil => intro _; rfl
  | cons k rest ih =>
    intro h
    simp only [mainConceptsOf, listFlatMap]
    rw [h k (List.mem_cons_self _ _)]
    simp only [List.map_nil, List.nil_append]
    exact ih (fun k2 hk2 => h k2 (List.mem_cons_of_mem _ hk2))

/-- C5: in a fully successful run with pairwise-distinct keywords, every
keyword's slot of the merged result has `primary` equal to that keyword's
Round-1 concept list, and `secondary` equal to the concatenation of the
Round-2 concept lists of all of that keyword's primary concepts, in order —
accumulation, not replacement: each primary concept sharing the keyword
contributes its own Round-2 output. (`secondary` stays absent for a keyword
with no primary concepts, the concatenation of nothing.) Round 2 is skipped
entirely — no Round-2 prompt is ever built — when the flattened
primary-concept list is empty. -/
theorem c5_merge_accumulation (textContent : String) (keywords : List String) (b : Nat)
    (r0User r1User r2User : String) (net0 : Except String (Option Js))
    (net1 : String → Except String (Option (List Concept)))
    (net2 : String × Concept → Except String (Option (List Concept)))
    (h1 : ∀ kw, ∃ o, net1 kw = Except.ok o)
    (h2 : ∀ p, ∃ o, net2 p = Except.ok o)
    (hnd : keywords.Nodup) (kw : String) (hkw : kw ∈ keywords) :
    ∃ out, performComprehensiveAnalysis textContent keywords (b + 1) r0User r1User r2User
        net0 net1 net2 = Except.ok out ∧
      out.results kw = some ⟨some (net1val net1 kw),
        if net1val net1 kw = [] then none
        else some (listFlatMap (fun c => net2val net2 (kw, c)) (net1val net1 kw))⟩ ∧
      ((∀ k2, k2 ∈ keywords → net1val net1 k2 = []) → out.round2Prompts = []) := by
  have hr1 : processInBatches keywords
      (fun kw (_ : Nat) =>
        match net1 kw with
        | Except.ok o => Except.ok (kw, o.getD [])
        | Except.error m => Except.error ("主概念提取失败 (" ++ kw ++ "): " ++ m))
      (b + 1) = Except.ok (keywords.map (fun kw => (kw, net1val net1 kw))) := by
    apply processInBatches_ok_mem
    intro t _ i
    obtain ⟨o, ho⟩ := h1 t
    simp [ho, net1val]
  have hflat : listFlatMap (fun kc => kc.snd.map (fun c => (kc.fst, c)))
      (keywords.map (fun kw => (kw, net1val net1 kw))) = mainConceptsOf net1 keywords := by
    rw [listFlatMap_map]
    rfl
  have hprim : buildPrimary (keywords.map (fun k => (k, net1val net1 k))) kw
      = some ⟨some (net1val net1 kw), none⟩ := by
    apply buildFold_lookup
    · have hcomp : (Prod.fst ∘ fun k => (k, net1val net1 k)) = (id : String → String) := by
        funext k; rfl
      rw [List.map_map, hcomp, List.map_id]
      exact hnd
    · exact List.mem_map_of_mem _ hkw
  simp only [performComprehensiveAnalysis, hr1, hflat]
  by_cases hlen : (mainConceptsOf net1 keywords).length > 0
  · have hr2 : processInBatches (mainConceptsOf net1 keywords)
        (fun p (_ : Nat) =>
          match net2 p with
          | Except.ok o => Except.ok (p.fst, o.getD [])
          | Except.error m => Except.error ("次级概念深化失败 (" ++ p.snd.name ++ "): " ++ m))
        (b + 1)
        = Except.ok ((mainConceptsOf net1 keywords).map (fun p => (p.fst, net2val net2 p))) := by
      apply processInBatches_ok_mem
      intro t _ i
      obtain ⟨o, ho⟩ := h2 t
      simp [ho, net2val]
    rw [if_pos hlen, hr2]
    refine ⟨_, rfl, ?_, ?_⟩
    · show applySecondary ((mainConceptsOf net1 keywords).map (fun p => (p.fst, net2val net2 p)))
        (buildPrimary (keywords.map (fun k => (k, net1val net1 k)))) kw = _
      rw [applySecondary_lookup]
      unfold buildPrimary at hprim ⊢
      rw [hprim]
      have hfil : (((mainConceptsOf net1 keywords).map
            (fun p => (p.fst, net2val net2 p))).filter (fun r => r.fst == kw)).map Prod.snd
          = (net1val net1 kw).map (fun c => net2val net2 (kw, c)) := by
        rw [List.filter_map]
        have hpred : ((fun r => r.fst == kw) ∘ (fun (p : String × Concept) => (p.fst, net2val net2 p)))
            = fun p => p.fst == kw := by
          funext p; rfl
        rw [hpred, mainConcepts_filter net1 keywords kw hnd hkw]
        simp [List.map_map, Function.comp]
      rw [hfil]
      cases hcs : net1val net1 kw with
      | nil => simp [secAfter]
      | cons c cs =>
        simp only [List.map_cons, secAfter, Option.getD_none, List.nil_append]
        rw [secAfter_some]
        have : listFlatMap id (cs.map (fun c => net2val net2 (kw, c)))
            = listFlatMap (fun c => net2val net2 (kw, c)) cs := by
          rw [listFlatMap_map]
          rfl
        rw [this]
        simp [listFlatMap]
    · intro hall
      exact absurd (mainConceptsOf_eq_nil net1 keywords hall)
        (by intro h; rw [h] at hlen; simp at hlen)
  · rw [if_neg hlen]
    refine ⟨_, rfl, ?_, fun _ => rfl⟩
    show buildPrimary (keywords.map (fun k => (k, net1val net1 k))) kw = _
    rw [hprim]
    have hnil : mainConceptsOf net1 keywords = [] := List.length_eq_zero.mp (by omega)
    have hcs : net1val net1 kw = [] := by
      have := mainConcepts_filter net1 keywords kw hnd hkw
      rw [hnil] at this
      simp only [List.filter_nil] at this
      exact List.map_eq_nil_iff.mp this.symm
    rw [hcs]
    simp

/-- Witness for C5: one keyword with two primary concepts; `secondary` is the
concatenation of both concepts' Round-2 outputs. -/
theorem c5_merge_accumulation_witness :
    ∃ out, performComprehensiveAnalysis "正文" ["X"] (0 + 1) "r0" "r1" "r2"
        (Except.ok none)
        (fun _ => Except.ok (some [⟨"c1", "C1", "d1", "e1"⟩, ⟨"c2", "C2", "d2", "e2"⟩]))
        (fun p => Except.ok (some [p.snd]))
        = Except.ok out ∧
      out.results "X" = some ⟨some (net1val
          (fun _ => Except.ok (some [⟨"c1", "C1", "d1", "e1"⟩, ⟨"c2", "C2", "d2", "e2"⟩])) "X"),
        if net1val (fun _ => Except.ok (some [⟨"c1", "C1", "d1", "e1"⟩, ⟨"c2", "C2", "d2", "e2"⟩])) "X" = []
        then none
        else some (listFlatMap (fun c => net2val (fun p => Except.ok (some [p.snd])) ("X", c))
          (net1val (fun _ => Except.ok (some [⟨"c1", "C1", "d1", "e1"⟩, ⟨"c2", "C2", "d2", "e2"⟩])) "X"))⟩ ∧
      ((∀ k2, k2 ∈ ["X"] → net1val
          (fun _ => Except.ok (some [⟨"c1", "C1", "d1", "e1"⟩, ⟨"c2", "C2", "d2", "e2"⟩])) k2 = []) →
        out.round2Prompts = []) :=
  c5_merge_accumulation "正文" ["X"] 0 "r0" "r1" "r2" (Except.ok none) _ _
    (fun _ => ⟨_, rfl⟩) (fun _ => ⟨_, rfl⟩) (by simp) "X" (by simp)

theorem jsSliceLast_comp {A : Type} (l : List A) (n k : Nat) (hn : 0 < n) (hk : 0 < k) :
    jsSliceLast (jsSliceLast l n) k = jsSliceLast l (min k n) := by
  unfold jsSliceLast
  rw [if_neg (by omega), if_neg (by omega), if_neg (by omega)]
  rw [List.length_drop, List.drop_drop]
  congr 1
  omega

/-- C8 counterexample: with everything else equal (a 6-message history), the
message list of the thinking call depends on `maxHistoryTurns`: the thinking
oracle reports the length of the list it receives, and the turn observes 4
messages under `maxHistoryTurns = 1` but 6 under `maxHistoryTurns = 3` — the
thinking window is not a fixed parameter-independent last-4 window. -/
theorem c8_counterexample :
    chatWithPersona samplePersonaPrompt sampleHistory "hi" "1-2" (onlyDefaultConfig 1)
        (fun msgs => Except.error (ChatErr.failure (toString msgs.length)))
        (fun _ => Except.ok "r")
      = Except.error (ChatErr.failure ("对话失败 (思考阶段): " ++ "4")) ∧
    chatWithPersona samplePersonaPrompt sampleHistory "hi" "1-2" (onlyDefaultConfig 3)
        (fun msgs => Except.error (ChatErr.failure (toString msgs.length)))
        (fun _ => Except.ok "r")
      = Except.error (ChatErr.failure ("对话失败 (思考阶段): " ++ "6")) := by
  exact ⟨rfl, rfl⟩

/-- C8 amended: the reply call's message list embeds exactly the truncated
history — the last `maxHistoryTurns * 2` messages (so with `maxHistoryTurns
= 2` and a 6-message history, exactly the last 4 messages) — while the
thinking call's window is the last 4 messages of that already-truncated
history, i.e. the last `min 4 (maxHistoryTurns * 2)` messages: it coincides
with a fixed last-4 window whenever `maxHistoryTurns ≥ 2` but is parameter
dependent below that. -/
theorem c8_amended (structuredPersonaPrompt : String) (history : List ChatMessage)
    (message philosophyCode : String)
    (parameterConfig : String → Option PersonaParameters) (params : PersonaParameters)
    (hparams : getEffectiveParameters philosophyCode parameterConfig = some params)
    (hm : 1 ≤ params.maxHistoryTurns)
    (tTpl rTpl : String)
    (hT : extractBetween structuredPersonaPrompt "<THINKING_PROMPT>" "</THINKING_PROMPT>"
      = some tTpl)
    (hR : extractBetween structuredPersonaPrompt "<REPLY_PROMPT>" "</REPLY_PROMPT>"
      = some rTpl)
    (netThinking netReply : List ApiMessage → Except ChatErr String) (tc : String)
    (hThink : netThinking (thinkingCallMessages
        (jsSliceLast history (params.maxHistoryTurns * 2))
        (jsReplaceAll tTpl "\x7b\x7buserInput\x7d\x7d" message)) = Except.ok tc) :
    chatWithPersona structuredPersonaPrompt history message philosophyCode parameterConfig
        netThinking netReply
      = (match netReply (replyCallMessages (jsSliceLast history (params.maxHistoryTurns * 2))
            message (jsTrim tc)
            (jsReplaceAll (jsReplaceAll rTpl "\x7b\x7buserInput\x7d\x7d" message)
              "\x7b\x7bthinking_content\x7d\x7d" (jsTrim tc))) with
         | Except.error e => Except.error (wrapStage "对话失败 (回答阶段): " e)
         | Except.ok rawReply =>
           Except.ok (jsTrim tc, jsTrim (stripThinkingBlock (jsTrim rawReply)))) ∧
    jsSliceLast (jsSliceLast history (params.maxHistoryTurns * 2)) 4
      = jsSliceLast history (min 4 (params.maxHistoryTurns * 2)) ∧
    (2 ≤ params.maxHistoryTurns →
      jsSliceLast (jsSliceLast history (params.maxHistoryTurns * 2)) 4
        = jsSliceLast history 4) := by
  refine ⟨?_, ?_, ?_⟩
  · unfold chatWithPersona
    rw [hparams]
    simp only [hT, hR, hThink]
  · exact jsSliceLast_comp history _ 4 (by omega) (by omega)
  · intro h2
    rw [jsSliceLast_comp history _ 4 (by omega) (by omega)]
    congr 1
    omega

/-- Witness for C8 amended: the claim's scenario C — `maxHistoryTurns = 2`,
6-message history; the theorem applies and pins both windows. -/
theorem c8_amended_witness :
    chatWithPersona samplePersonaPrompt sampleHistory "hi" "1-2" (onlyDefaultConfig 2)
        (fun _ => Except.ok "思考") (fun _ => Except.ok "回答")
      = (match (fun (_ : List ApiMessage) => Except.ok (ε := ChatErr) "回答")
            (replyCallMessages (jsSliceLast sampleHistory (2 * 2)) "hi" (jsTrim "思考")
            (jsReplaceAll (jsReplaceAll "R" "\x7b\x7buserInput\x7d\x7d" "hi")
              "\x7b\x7bthinking_content\x7d\x7d" (jsTrim "思考"))) with
         | Except.error e => Except.error (wrapStage "对话失败 (回答阶段): " e)
         | Except.ok rawReply =>
           Except.ok (jsTrim "思考", jsTrim (stripThinkingBlock (jsTrim rawReply)))) ∧
    jsSliceLast (jsSliceLast sampleHistory (2 * 2)) 4
      = jsSliceLast sampleHistory (min 4 (2 * 2)) ∧
    (2 ≤ 2 → jsSliceLast (jsSliceLast sampleHistory (2 * 2)) 4
      = jsSliceLast sampleHistory 4) := by
  have h := c8_amended samplePersonaPrompt sampleHistory "hi" "1-2" (onlyDefaultConfig 2)
    ⟨1, 1, 2⟩ (by decide) (by decide) "T" "R" (by decide) (by decide)
    (fun _ => Except.ok "思考") (fun _ => Except.ok "回答") "思考" rfl
  exact h

/-- C6 counterexample: in direct chat a failing turn does contribute to the
persona's history — the incoming user message is committed before the call and
retained on failure. Here the thinking call of the turn fails (through the
full `chatWithPersona` model), yet the history ends as `[user "hi"]`, not the
unchanged `[]` the claim requires. -/
theorem c6_counterexample :
    handleSendMessage [] "hi"
        (chatWithPersona samplePersonaPrompt [⟨Role.user, "hi", none⟩] "hi" "1-2"
          (onlyDefaultConfig 2)
          (fun _ => Except.error (ChatErr.failure "boom")) (fun _ => Except.ok "r")
          |>.map (fun p => (some p.fst, p.snd)))
        false
      = ([⟨Role.user, "hi", none⟩], some ("对话失败 (思考阶段): " ++ "boom")) ∧
    ([⟨Role.user, "hi", none⟩] : List ChatMessage) ≠ [] := by
  exact ⟨rfl, by decide⟩

/-- C6 amended: on any call failure or abort, the model reply of the turn is
never committed and prior committed history is retained; the reply is appended
only after the call succeeds with the signal still live. In observer mode the
whole turn — incoming message included — is uncommitted on failure or abort.
In direct chat, however, the incoming user message is committed optimistically
when the turn starts and is retained even when the turn then fails or is
aborted. -/
theorem c6_amended (history : List ChatMessage) (userInput : String)
    (hblank : jsTrim userInput ≠ "")
    (e : ChatErr) (t : Option String) (r : String)
    (outcomes : Nat → Except ChatErr (Option String × String))
    (abortTop abortAfter : Nat → Bool) (fuel i : Nat)
    (hA hB : List ChatMessage) (cur : String) (m : String)
    (hfail : outcomes i = Except.error (ChatErr.failure m))
    (htop : abortTop i = false) :
    handleSendMessage history userInput (Except.error e) false
      = (history ++ [⟨Role.user, userInput, none⟩],
         some (match e with
               | ChatErr.aborted => "对话已由用户手动停止。"
               | ChatErr.failure msg => msg)) ∧
    handleSendMessage history userInput (Except.ok (t, r)) false
      = (history ++ [⟨Role.user, userInput, none⟩, ⟨Role.model, r, t⟩], none) ∧
    handleSendMessage history userInput (Except.ok (t, r)) true
      = (history ++ [⟨Role.user, userInput, none⟩], none) ∧
    observerLoop outcomes abortTop abortAfter (fuel + 1) i hA hB cur
      = (hA, hB, some m) := by
  refine ⟨?_, ?_, ?_, ?_⟩
  · unfold handleSendMessage
    rw [if_neg hblank]
    cases e <;> simp
  · unfold handleSendMessage
    rw [if_neg hblank]
    simp [List.append_assoc]
  · unfold handleSendMessage
    rw [if_neg hblank]
    simp
  · unfold observerLoop
    rw [htop, hfail]
    simp

/-- Witness for C6 amended at concrete inputs: a nonempty user input, a
failing turn, and an observer turn whose call fails with message `"x"`. -/
theorem c6_amended_witness :
    handleSendMessage sampleHistory "你好" (Except.error (ChatErr.failure "err")) false
      = (sampleHistory ++ [⟨Role.user, "你好", none⟩],
         some (match ChatErr.failure "err" with
               | ChatErr.aborted => "对话已由用户手动停止。"
               | ChatErr.failure msg => msg)) ∧
    handleSendMessage sampleHistory "你好" (Except.ok (some "t", "回")) false
      = (sampleHistory ++ [⟨Role.user, "你好", none⟩, ⟨Role.model, "回", some "t"⟩], none) ∧
    handleSendMessage sampleHistory "你好" (Except.ok (some "t", "回")) true
      = (sampleHistory ++ [⟨Role.user, "你好", none⟩], none) ∧
    observerLoop (fun _ => Except.error (ChatErr.failure "x")) (fun _ => false)
        (fun _ => false) (3 + 1) 2 sampleHistory [] "topic"
      = (sampleHistory, [], some "x") :=
  c6_amended sampleHistory "你好" (by decide) (ChatErr.failure "err") (some "t") "回"
    (fun _ => Except.error (ChatErr.failure "x")) (fun _ => false) (fun _ => false)
    3 2 sampleHistory [] "topic" "x" rfl rfl

/-- C7 counterexample: starting from the initial state, a first generation
creates controller `0`; starting a second generation while it is in flight
returns the very same un-aborted controller and leaves the state unchanged —
the previous generation token is neither aborted nor replaced, so the
abort-and-replace discipline does not hold for the generation kind. -/
theorem c7_counterexample :
    (handleGenerateStart (handleGenerateStart ⟨none, none, [], 0⟩).fst).snd
      = (handleGenerateStart ⟨none, none, [], 0⟩).snd ∧
    (handleGenerateStart ⟨none, none, [], 0⟩).snd ∉
      (handleGenerateStart (handleGenerateStart ⟨none, none, [], 0⟩).fst).fst.abortedIds ∧
    (handleGenerateStart (handleGenerateStart ⟨none, none, [], 0⟩).fst).fst
      = (handleGenerateStart ⟨none, none, [], 0⟩).fst := by
  refine ⟨rfl, by decide, rfl⟩

/-- C7 amended: the conversation kind does abort and replace — starting a
conversation-kind operation aborts the previous conversation token (when one
exists) and installs the fresh token it returns, before any request is
issued. The generation kind does not: when a generation controller exists,
starting a new generation reuses it unchanged (no abort, no replacement); a
fresh generation controller is created only when none exists (e.g. after
`handleStopGeneration`, which aborts and clears it). -/
theorem c7_amended (s : ControllerState) (c : Nat) :
    (s.convCtrl = some c → c ∈ (conversationStart s).fst.abortedIds) ∧
    (conversationStart s).fst.convCtrl = some (conversationStart s).snd ∧
    (s.genCtrl = some c → handleGenerateStart s = (s, c)) ∧
    (s.genCtrl = none →
      handleGenerateStart s
        = ({ s with genCtrl := some s.nextId, nextId := s.nextId + 1 }, s.nextId)) ∧
    handleStopGeneration { s with genCtrl := some c }
      = { s with genCtrl := none, abortedIds := c :: s.abortedIds } := by
  refine ⟨?_, ?_, ?_, ?_, ?_⟩
  · intro hc
    unfold conversationStart
    rw [hc]
    simp [abortCtrl]
  · unfold conversationStart
    cases s.convCtrl <;> simp [abortCtrl]
  · intro hc
    unfold handleGenerateStart
    rw [hc]
  · intro hc
    unfold handleGenerateStart
    rw [hc]
  · rfl

/-- Witness for C7 amended at a concrete state with both tokens live. -/
theorem c7_amended_witness :
    ((⟨some 7, some 7, [], 8⟩ : ControllerState).convCtrl = some 7 →
      7 ∈ (conversationStart ⟨some 7, some 7, [], 8⟩).fst.abortedIds) ∧
    (conversationStart ⟨some 7, some 7, [], 8⟩).fst.convCtrl
      = some (conversationStart ⟨some 7, some 7, [], 8⟩).snd ∧
    ((⟨some 7, some 7, [], 8⟩ : ControllerState).genCtrl = some 7 →
      handleGenerateStart ⟨some 7, some 7, [], 8⟩ = (⟨some 7, some 7, [], 8⟩, 7)) ∧
    ((⟨some 7, some 7, [], 8⟩ : ControllerState).genCtrl = none →
      handleGenerateStart ⟨some 7, some 7, [], 8⟩
        = ({ (⟨some 7, some 7, [], 8⟩ : ControllerState) with
              genCtrl := some 8, nextId := 9 }, 8)) ∧
    handleStopGeneration { (⟨some 7, some 7, [], 8⟩ : ControllerState) with genCtrl := some 7 }
      = { (⟨some 7, some 7, [], 8⟩ : ControllerState) with
          genCtrl := none, abortedIds := [7] } :=
  c7_amended ⟨some 7, some 7, [], 8⟩ 7

end MPIS
